import Mathlib

/-!
Shallow embedding of src/RaiiObjectPool.hpp.

The repository implements one template class, RaiiObjectPool of T, together
with its nested deleter class ReturnToPoolDeleter.  The embedding models a
single pool instance and the handles (std::unique_ptr of T with the custom
deleter) it hands out.

Modelling decisions, each tied to a construct of the source:
  - T instances are identified by natural numbers; the caller-supplied
    factory is modelled as producing the next fresh identifier (the factory
    is an opaque callback in the source, only its invocation count and its
    possible failure matter to the spec).  A Boolean flag on acquire injects
    a factory throw.
  - A std::weak_ptr to the single pool is a Bool: true when the weak pointer
    references the pool, false when it is empty or was reset by
    detachFromPool.  A World flag poolAlive tells whether weak_ptr::lock
    succeeds.
  - Exceptions are the Except monad; the error also carries the World at the
    throw point so that instrumentation counters survive an escape.  The
    exception kinds distinguish std::bad_alloc (the only type the deleter
    catches, RaiiObjectPool.hpp line 226) from any other exception type
    (e.g. std::system_error from the mutex): Exn.badAlloc and Exn.other.
  - std::stack of UniquePtrToObject is a List with its head as the top.
  - The mutex serialises operations; each operation is a single atomic step
    on the World, so the lock itself needs no representation.
  - Instrumentation fields of World (nextObj, factoryCalls,
    factorySuccesses, addCalls, destroyed) record the externally observable
    events the spec talks about: factory invocations, calls into add, and
    permanent destructions (delete).  They are ghost state: no operation of
    the source reads them.
-/

namespace RaiiPool

/-- Exception kinds relevant to the deleter's catch clause: std::bad_alloc
(caught at RaiiObjectPool.hpp line 226) versus every other exception type
(not caught). -/
inductive Exn where
  | badAlloc
  | other
deriving DecidableEq, Repr

/-- ReturnToPoolDeleter (RaiiObjectPool.hpp lines 102-116): its only data
member is _ptrToOwnerPool, a std::weak_ptr to the originating pool.  With a
single pool in the model, the weak pointer is engaged (true) or empty
(false). -/
structure ReturnToPoolDeleter where
  _ptrToOwnerPool : Bool
deriving DecidableEq, Repr

/-- UniquePtrToObject (RaiiObjectPool.hpp line 26): std::unique_ptr of T
with the custom deleter.  obj = none is the empty pointer. -/
structure UniquePtrToObject where
  obj : Option Nat
  deleter : ReturnToPoolDeleter
deriving DecidableEq, Repr

/-- The data members of RaiiObjectPool guarded by _mutex
(RaiiObjectPool.hpp lines 85-97): _limit, _allocated and _poolContainer
(head of the list = top of the std::stack). -/
structure PoolState where
  _limit : Nat
  _allocated : Nat
  _poolContainer : List UniquePtrToObject
deriving DecidableEq, Repr

/-- The world: the single pool's state, whether the pool object is still
alive (weak_ptr::lock succeeds), and ghost instrumentation: the next fresh
object identifier, how many times the factory was invoked, how many of
those invocations returned, how many times add was entered, and the
identifiers already destroyed with delete, in order. -/
structure World where
  pool : PoolState
  poolAlive : Bool
  nextObj : Nat
  factoryCalls : Nat
  factorySuccesses : Nat
  addCalls : Nat
  destroyed : List Nat
deriving DecidableEq, Repr

/-- Accessor limit() (RaiiObjectPool.hpp lines 186-191). -/
def World.limit (w : World) : Nat := w.pool._limit

/-- Accessor allocated() (RaiiObjectPool.hpp lines 193-198). -/
def World.allocated (w : World) : Nat := w.pool._allocated

/-- Accessor pooled() (RaiiObjectPool.hpp lines 200-205): size of
_poolContainer. -/
def World.pooled (w : World) : Nat := w.pool._poolContainer.length

/-- RaiiObjectPool::create / the protected constructor (RaiiObjectPool.hpp
lines 124-139): _limit from the argument, _allocated = 0, empty container;
the freshly created pool is alive and no events have happened. -/
def create (limitArg : Nat) : World :=
  { pool := { _limit := limitArg, _allocated := 0, _poolContainer := [] }
    poolAlive := true
    nextObj := 0
    factoryCalls := 0
    factorySuccesses := 0
    addCalls := 0
    destroyed := [] }

/-- A full handle as built by the allocate branch of acquire and by the
deleter's re-wrap (RaiiObjectPool.hpp lines 169 and 223): the object plus a
deleter whose weak pointer references the pool. -/
def fullH (p : Nat) : UniquePtrToObject :=
  { obj := some p, deleter := { _ptrToOwnerPool := true } }

/-- Outcome of acquire: a returned handle with the post-state, or an
exception escaping to the caller (the factory threw) with the post-state at
the throw point. -/
inductive AcquireOutcome where
  | ret (h : UniquePtrToObject) (w : World)
  | exn (w : World)
deriving DecidableEq, Repr

/-- Post-state of an acquire, irrespective of outcome. -/
def AcquireOutcome.world : AcquireOutcome → World
  | .ret _ w => w
  | .exn w => w

/-- RaiiObjectPool::acquire (RaiiObjectPool.hpp lines 152-177), one atomic
step under the lock.  If _poolContainer is non-empty, pop and return its
top.  Else if _limit == Unlimited (0) or _allocated < _limit, the source
first executes ++_allocated (line 168) and then invokes the factory
(line 169); factoryThrows injects a throw of that factory call, which
escapes after the increment.  On success the new object is wrapped with a
deleter holding a weak pointer to this pool.  Else return the empty
handle. -/
def acquire (w : World) (factoryThrows : Bool) : AcquireOutcome :=
  match w.pool._poolContainer with
  | top :: rest =>
      .ret top { w with pool := { w.pool with _poolContainer := rest } }
  | [] =>
      if w.pool._limit = 0 ∨ w.pool._allocated < w.pool._limit then
        let wInc := { w with pool := { w.pool with _allocated := w.pool._allocated + 1 } }
        if factoryThrows then
          .exn { wInc with factoryCalls := wInc.factoryCalls + 1 }
        else
          .ret (fullH wInc.nextObj)
            { wInc with
                nextObj := wInc.nextObj + 1
                factoryCalls := wInc.factoryCalls + 1
                factorySuccesses := wInc.factorySuccesses + 1 }
      else
        .ret { obj := none, deleter := { _ptrToOwnerPool := false } } w

/-- RaiiObjectPool::add (RaiiObjectPool.hpp lines 179-184): push the handle
onto _poolContainer.  pushFail injects a failure of the push (std::bad_alloc
while growing the stack, or another exception type, e.g. std::system_error
from the mutex); under the strong guarantee of std::stack::push the
container is unchanged on failure.  Entering add is counted either way.
Simplification: the source takes the UniquePtrToObject parameter by value
(line 180), so on a throw the parameter still owns the object and its
destructor re-runs the return protocol during unwinding; this collapsed
model instead hands the object back to the caller.  The faithful failure
behaviour is modelled separately by deleterCallUnwind; the claims proved
against add and deleterCall exercise only the success, dead-pool and
detached branches, where the two models agree. -/
def add (w : World) (ptr : UniquePtrToObject) (pushFail : Option Exn) :
    Except (Exn × World) World :=
  let w1 := { w with addCalls := w.addCalls + 1 }
  match pushFail with
  | some e => .error (e, w1)
  | none =>
      .ok { w1 with pool := { w1.pool with _poolContainer := ptr :: w1.pool._poolContainer } }

/-- The statement delete ptrToReleasedObject (RaiiObjectPool.hpp line 229):
the instance is permanently destroyed. -/
def deleteObj (w : World) (p : Nat) : World :=
  { w with destroyed := w.destroyed ++ [p] }

/-- ReturnToPoolDeleter::operator() (RaiiObjectPool.hpp lines 215-230),
called with the raw pointer p.  If the weak pointer locks (it is engaged and
the pool is alive), try pool->add with the object re-wrapped in a new handle
whose deleter again holds a weak pointer to the pool, and return; only
std::bad_alloc is caught and falls through to delete.  If the lock fails,
delete the object.  Simplification in the failure branches (see add and
deleterCallUnwind): the collapsed model treats a failed insertion as if the
object were still in the deleter's hand, to be deleted (bad_alloc) or left
untouched while the error propagates (other); the source instead re-enters
the return protocol from the by-value parameter's destructor during
unwinding.  The success, dead-pool and detached branches used by the claims
below are unaffected by the simplification. -/
def deleterCall (w : World) (d : ReturnToPoolDeleter) (p : Nat) (pushFail : Option Exn) :
    Except (Exn × World) World :=
  if d._ptrToOwnerPool && w.poolAlive then
    match add w (fullH p) pushFail with
    | .ok w1 => .ok w1
    | .error (.badAlloc, w1) => .ok (deleteObj w1 p)
    | .error (.other, w1) => .error (.other, w1)
  else
    .ok (deleteObj w p)

/-- Destruction of a handle (std::unique_ptr destructor): the deleter runs
only when the stored pointer is non-null. -/
def dispose (w : World) (h : UniquePtrToObject) (pushFail : Option Exn) :
    Except (Exn × World) World :=
  match h.obj with
  | none => .ok w
  | some p => deleterCall w h.deleter p pushFail

/-- ReturnToPoolDeleter::detachFromPool (RaiiObjectPool.hpp lines 232-236):
_ptrToOwnerPool.reset(), leaving the weak pointer empty. -/
def ReturnToPoolDeleter.detachFromPool (_d : ReturnToPoolDeleter) : ReturnToPoolDeleter :=
  { _ptrToOwnerPool := false }

/-- Post-state of a handle destruction irrespective of outcome (on an
escaping exception, the state at the throw point). -/
def afterDispose : Except (Exn × World) World → World
  | .ok w => w
  | .error (_, w) => w

/-- Outcome of the faithful disposal model deleterCallUnwind: the deleter
invocation returned normally, or the program reached std::terminate (an
exception escaped into a noexcept unique_ptr destructor during
unwinding). -/
inductive UnwindResult where
  | done (w : World)
  | terminated (w : World)
deriving DecidableEq, Repr

/-- Faithful model of the failure path of ReturnToPoolDeleter::operator()
(RaiiObjectPool.hpp lines 215-230) combined with add (lines 179-184).
add takes its UniquePtrToObject parameter by value (line 180), so when the
lock or the push throws, the parameter still owns the object (std::deque
gives push the strong guarantee and the unique_ptr move is noexcept), and
during stack unwinding the parameter's destructor re-invokes operator() on
the same raw pointer - re-attempting the insertion - before the catch
clause of the outer invocation runs.  Afterwards the exception continues:
std::bad_alloc is caught and line 229 executes delete ptrToReleasedObject
regardless of what the re-entrant attempt did; any other exception type
leaves operator(), which in this code always runs inside a noexcept
unique_ptr destructor, so the program calls std::terminate.  fails gives,
for each successive entry into add, the exception that entry throws
(none = the push succeeds); entries beyond the end of the list succeed,
so a finite list expresses a finite recursion depth. -/
def deleterCallUnwind (d : ReturnToPoolDeleter) (p : Nat) :
    List (Option Exn) → World → UnwindResult
  | fails, w =>
    if d._ptrToOwnerPool && w.poolAlive then
      match fails with
      | [] =>
          .done { w with
                    addCalls := w.addCalls + 1
                    pool := { w.pool with
                      _poolContainer := fullH p :: w.pool._poolContainer } }
      | none :: _rest =>
          .done { w with
                    addCalls := w.addCalls + 1
                    pool := { w.pool with
                      _poolContainer := fullH p :: w.pool._poolContainer } }
      | some e :: rest =>
          match deleterCallUnwind d p rest { w with addCalls := w.addCalls + 1 } with
          | .terminated w2 => .terminated w2
          | .done w2 =>
              match e with
              | .badAlloc => .done (deleteObj w2 p)
              | .other => .terminated w2
    else
      .done (deleteObj w p)

/-- The loop of the pool destructor (RaiiObjectPool.hpp lines 141-150) over
the stack contents: detach the top entry's deleter from the pool, then pop,
which destroys the entry and hence runs its (now detached) deleter on the
held pointer.  A detached deleter never throws, so the error branch is
unreachable. -/
def dtorLoop : List UniquePtrToObject → World → World
  | [], w => w
  | top :: rest, w =>
      let w1 := { w with pool := { w.pool with _poolContainer := rest } }
      let w2 := afterDispose
        (dispose w1 { top with deleter := top.deleter.detachFromPool } none)
      dtorLoop rest w2

/-- RaiiObjectPool::~RaiiObjectPool (RaiiObjectPool.hpp lines 141-150):
run the detach-and-pop loop over the container, after which the pool object
is gone (weak pointers to it no longer lock). -/
def poolDtor (w : World) : World :=
  { dtorLoop w.pool._poolContainer w with poolAlive := false }

/-- Operations a caller can perform on a live pool: acquire (with a flag
injecting a factory throw), or destruction of the i-th outstanding handle
(with an injected failure of the push inside add). -/
inductive Op where
  | acq (factoryThrows : Bool)
  | rel (i : Nat) (pushFail : Option Exn)
deriving DecidableEq, Repr

/-- A configuration: the world plus the handles currently held by callers
(in acquisition order). -/
structure Config where
  world : World
  handsOut : List UniquePtrToObject
deriving DecidableEq, Repr

/-- One caller operation.  acq runs acquire and the caller keeps the
returned handle (also when it is empty); a factory throw leaves the handle
set unchanged.  rel i destroys the i-th outstanding handle (a no-op index
when out of range). -/
def step (c : Config) (op : Op) : Config :=
  match op with
  | .acq ft =>
      match acquire c.world ft with
      | .ret h w1 => { world := w1, handsOut := c.handsOut ++ [h] }
      | .exn w1 => { world := w1, handsOut := c.handsOut }
  | .rel i f =>
      match c.handsOut[i]? with
      | none => c
      | some h =>
          { world := afterDispose (dispose c.world h f)
            handsOut := c.handsOut.eraseIdx i }

/-- A sequence of caller operations. -/
def run : List Op → Config → Config
  | [], c => c
  | op :: ops, c => run ops (step c op)

/-- A freshly created pool with no outstanding handles. -/
def initConfig (limitArg : Nat) : Config :=
  { world := create limitArg, handsOut := [] }

/-- True when the operation sequence injects no factory throw. -/
def noFactoryFailure (ops : List Op) : Bool :=
  ops.all fun op =>
    match op with
    | .acq true => false
    | _ => true

/-- Number of full (non-empty) handles in a list. -/
def fullCount (hs : List UniquePtrToObject) : Nat :=
  (hs.filter fun h => h.obj.isSome).length

/-- The state reached by the deleter after a successful re-insertion:
the object re-wrapped as a full handle pushed on the container, and one more
entry into add. -/
def pushBack (w : World) (p : Nat) : World :=
  { w with
      pool := { w.pool with _poolContainer := fullH p :: w.pool._poolContainer }
      addCalls := w.addCalls + 1 }

/-- Invariant of a configuration: recycled entries plus full outstanding
handles never exceed the allocation count, and the allocation count respects
a non-zero limit. -/
def Inv (c : Config) : Prop :=
  c.world.pool._poolContainer.length + fullCount c.handsOut ≤ c.world.pool._allocated
  ∧ (c.world.pool._limit ≠ 0 → c.world.pool._allocated ≤ c.world.pool._limit)

/-- The world after popping the container top, as done by the pop branch of
acquire. -/
def popTop (w : World) : World :=
  { w with pool := { w.pool with _poolContainer := w.pool._poolContainer.tail } }

/-- Configuration after i plain acquires on a fresh pool of the given
limit. -/
def afterAcqs (limitArg i : Nat) : Config :=
  run (List.replicate i (Op.acq false)) (initConfig limitArg)

/-- Configuration after N plain acquires followed by the release of all N
handles, on a fresh pool of limit N. -/
def afterCycle (N : Nat) : Config :=
  run (List.replicate N (Op.acq false) ++ List.replicate N (Op.rel 0 none)) (initConfig N)

-- Basic lemmas about run

theorem run_append (xs ys : List Op) (c : Config) :
    run (xs ++ ys) c = run ys (run xs c) := by
  induction xs generalizing c with
  | nil => rfl
  | cons op xs ih => simp [run, ih]

theorem fullCount_append (hs ts : List UniquePtrToObject) :
    fullCount (hs ++ ts) = fullCount hs + fullCount ts := by
  simp [fullCount, List.filter_append]

theorem fullCount_eraseIdx (hs : List UniquePtrToObject) (i : Nat)
    (h : UniquePtrToObject) (hget : hs[i]? = some h) :
    fullCount hs = fullCount (hs.eraseIdx i) + (if h.obj.isSome then 1 else 0) := by
  induction hs generalizing i with
  | nil => simp at hget
  | cons h0 t ih =>
      cases i with
      | zero =>
          simp only [List.getElem?_cons_zero, Option.some_inj] at hget
          subst hget
          by_cases hfull : h0.obj.isSome = true <;>
            simp [fullCount, List.filter_cons, hfull]
      | succ j =>
          simp only [List.getElem?_cons_succ] at hget
          have hrec := ih j hget
          by_cases hfull : h0.obj.isSome = true <;>
            simp [fullCount, List.eraseIdx_cons_succ, List.filter_cons, hfull] at hrec ⊢ <;>
            omega

theorem fullCount_singleton (h : UniquePtrToObject) :
    fullCount [h] = if h.obj.isSome then 1 else 0 := by
  by_cases hfull : h.obj.isSome = true <;> simp [fullCount, List.filter_cons, hfull]

-- Shape lemmas for acquire, one per branch of the source

theorem acquire_cons (w : World) (ft : Bool) (top : UniquePtrToObject)
    (rest : List UniquePtrToObject) (hw : w.pool._poolContainer = top :: rest) :
    acquire w ft = .ret top { w with pool := { w.pool with _poolContainer := rest } } := by
  simp [acquire, hw]

theorem acquire_alloc (w : World) (hw : w.pool._poolContainer = [])
    (hlim : w.pool._limit = 0 ∨ w.pool._allocated < w.pool._limit) :
    acquire w false = .ret (fullH w.nextObj)
      { w with
          pool := { w.pool with _allocated := w.pool._allocated + 1 }
          nextObj := w.nextObj + 1
          factoryCalls := w.factoryCalls + 1
          factorySuccesses := w.factorySuccesses + 1 } := by
  simp [acquire, hw, hlim]

theorem acquire_throw (w : World) (hw : w.pool._poolContainer = [])
    (hlim : w.pool._limit = 0 ∨ w.pool._allocated < w.pool._limit) :
    acquire w true = .exn
      { w with
          pool := { w.pool with _allocated := w.pool._allocated + 1 }
          factoryCalls := w.factoryCalls + 1 } := by
  simp [acquire, hw, hlim]

theorem acquire_exhausted (w : World) (ft : Bool) (hw : w.pool._poolContainer = [])
    (hlim : ¬(w.pool._limit = 0 ∨ w.pool._allocated < w.pool._limit)) :
    acquire w ft = .ret { obj := none, deleter := { _ptrToOwnerPool := false } } w := by
  simp [acquire, hw, hlim]

-- Case analysis of a handle destruction as seen by the pool

theorem dispose_pool_cases (w : World) (h : UniquePtrToObject) (f : Option Exn) :
    (afterDispose (dispose w h f)).pool = w.pool
  ∨ (∃ p, h.obj = some p ∧ (afterDispose (dispose w h f)).pool =
      { w.pool with _poolContainer := fullH p :: w.pool._poolContainer }) := by
  cases hobj : h.obj with
  | none => left; simp [dispose, hobj, afterDispose]
  | some p =>
      by_cases hl : (h.deleter._ptrToOwnerPool && w.poolAlive) = true
      · cases f with
        | none =>
            right
            exact ⟨p, rfl, by simp [dispose, hobj, deleterCall, hl, add, afterDispose]⟩
        | some e =>
            left
            cases e <;> simp [dispose, hobj, deleterCall, hl, add, afterDispose, deleteObj]
      · left
        simp [dispose, hobj, deleterCall, hl, afterDispose, deleteObj]

theorem dispose_allocated (w : World) (h : UniquePtrToObject) (f : Option Exn) :
    (afterDispose (dispose w h f)).pool._allocated = w.pool._allocated := by
  rcases dispose_pool_cases w h f with hc | ⟨p, _, hc⟩ <;> rw [hc]

theorem dispose_limit (w : World) (h : UniquePtrToObject) (f : Option Exn) :
    (afterDispose (dispose w h f)).pool._limit = w.pool._limit := by
  rcases dispose_pool_cases w h f with hc | ⟨p, _, hc⟩ <;> rw [hc]

-- The reachable-state invariant of the pool

theorem step_preserves_inv (c : Config) (op : Op) (hInv : Inv c) : Inv (step c op) := by
  obtain ⟨h1, h2⟩ := hInv
  cases op with
  | acq ft =>
      cases hw : c.world.pool._poolContainer with
      | cons top rest =>
          rw [hw, List.length_cons] at h1
          have hft : fullCount [top] ≤ 1 := by
            rw [fullCount_singleton]
            split <;> omega
          constructor
          · simp only [step, acquire_cons c.world ft top rest hw, fullCount_append]
            omega
          · simpa only [step, acquire_cons c.world ft top rest hw] using h2
      | nil =>
          rw [hw, List.length_nil] at h1
          by_cases hlim : c.world.pool._limit = 0 ∨ c.world.pool._allocated < c.world.pool._limit
          · cases ft with
            | false =>
                have hfull1 : fullCount [fullH c.world.nextObj] = 1 := by
                  simp [fullCount_singleton, fullH]
                constructor
                · simp only [step, acquire_alloc c.world hw hlim, fullCount_append, hfull1, hw,
                    List.length_nil]
                  omega
                · simp only [step, acquire_alloc c.world hw hlim]
                  intro hl
                  rcases hlim with h0 | hlt <;> omega
            | true =>
                constructor
                · simp only [step, acquire_throw c.world hw hlim, hw, List.length_nil]
                  omega
                · simp only [step, acquire_throw c.world hw hlim]
                  intro hl
                  rcases hlim with h0 | hlt <;> omega
          · have hfull0 :
                fullCount [({ obj := none, deleter := { _ptrToOwnerPool := false } } :
                  UniquePtrToObject)] = 0 := by
              simp [fullCount_singleton]
            constructor
            · simp only [step, acquire_exhausted c.world ft hw hlim, fullCount_append, hfull0, hw,
                List.length_nil]
              omega
            · simpa only [step, acquire_exhausted c.world ft hw hlim] using h2
  | rel i f =>
      cases hh : c.handsOut[i]? with
      | none =>
          constructor
          · simpa only [step, hh] using h1
          · simpa only [step, hh] using h2
      | some h =>
          have hcnt := fullCount_eraseIdx c.handsOut i h hh
          have halloc := dispose_allocated c.world h f
          have hlim := dispose_limit c.world h f
          constructor
          · simp only [step, hh]
            rcases dispose_pool_cases c.world h f with hc | ⟨p, hp, hc⟩
            · rw [hc]
              split at hcnt <;> omega
            · rw [hc]
              simp only [hp, Option.isSome_some, if_true] at hcnt
              simp only [List.length_cons]
              omega
          · simp only [step, hh]
            rw [halloc, hlim]
            exact h2

theorem run_preserves_inv (ops : List Op) (c : Config) (hInv : Inv c) :
    Inv (run ops c) := by
  induction ops generalizing c with
  | nil => exact hInv
  | cons op ops ih => exact ih (step c op) (step_preserves_inv c op hInv)

theorem inv_initConfig (limitArg : Nat) : Inv (initConfig limitArg) := by
  constructor <;> simp [initConfig, create, fullCount]

-- Frame lemmas: what a handle destruction can never change

theorem dispose_frame (w : World) (h : UniquePtrToObject) (f : Option Exn) :
    (afterDispose (dispose w h f)).poolAlive = w.poolAlive
  ∧ (afterDispose (dispose w h f)).nextObj = w.nextObj
  ∧ (afterDispose (dispose w h f)).factoryCalls = w.factoryCalls
  ∧ (afterDispose (dispose w h f)).factorySuccesses = w.factorySuccesses := by
  cases hobj : h.obj with
  | none => simp [dispose, hobj, afterDispose]
  | some p =>
      by_cases hl : (h.deleter._ptrToOwnerPool && w.poolAlive) = true
      · rcases f with _ | e
        · simp [dispose, hobj, deleterCall, hl, add, afterDispose]
        · cases e <;> simp [dispose, hobj, deleterCall, hl, add, afterDispose, deleteObj]
      · simp [dispose, hobj, deleterCall, hl, afterDispose, deleteObj]

theorem step_allocated_mono (c : Config) (op : Op) :
    c.world.pool._allocated ≤ (step c op).world.pool._allocated := by
  cases op with
  | acq ft =>
      cases hw : c.world.pool._poolContainer with
      | cons top rest => simp [step, acquire_cons c.world ft top rest hw]
      | nil =>
          by_cases hlim : c.world.pool._limit = 0 ∨ c.world.pool._allocated < c.world.pool._limit
          · cases ft with
            | false => simp [step, acquire_alloc c.world hw hlim]
            | true => simp [step, acquire_throw c.world hw hlim]
          · simp [step, acquire_exhausted c.world ft hw hlim]
  | rel i f =>
      cases hh : c.handsOut[i]? with
      | none => simp [step, hh]
      | some h =>
          simp only [step, hh]
          rw [dispose_allocated c.world h f]

theorem step_alloc_eq_successes (c : Config) (op : Op) (hop : op ≠ Op.acq true)
    (h : c.world.pool._allocated = c.world.factorySuccesses) :
    (step c op).world.pool._allocated = (step c op).world.factorySuccesses := by
  cases op with
  | acq ft =>
      cases ft with
      | true => exact absurd rfl hop
      | false =>
          cases hw : c.world.pool._poolContainer with
          | cons top rest => simp [step, acquire_cons c.world false top rest hw, h]
          | nil =>
              by_cases hlim :
                  c.world.pool._limit = 0 ∨ c.world.pool._allocated < c.world.pool._limit
              · simp [step, acquire_alloc c.world hw hlim, h]
              · simp [step, acquire_exhausted c.world false hw hlim, h]
  | rel i f =>
      cases hh : c.handsOut[i]? with
      | none => simpa [step, hh] using h
      | some hd =>
          simp only [step, hh]
          rw [dispose_allocated c.world hd f, (dispose_frame c.world hd f).2.2.2, h]

theorem run_alloc_eq_successes (ops : List Op) (c : Config)
    (hops : noFactoryFailure ops = true)
    (h : c.world.pool._allocated = c.world.factorySuccesses) :
    (run ops c).world.pool._allocated = (run ops c).world.factorySuccesses := by
  induction ops generalizing c with
  | nil => exact h
  | cons op ops ih =>
      rw [noFactoryFailure, List.all_cons, Bool.and_eq_true] at hops
      obtain ⟨hop, hops⟩ := hops
      have hne : op ≠ Op.acq true := by
        intro hcontra
        rw [hcontra] at hop
        simp at hop
      exact ih (step c op) hops (step_alloc_eq_successes c op hne h)

-- Settled claims

/-- Claim C1 (code bug in the source): when the factory throws inside
acquire, the exception does propagate synchronously to the caller, but the
source executes ++_allocated (RaiiObjectPool.hpp line 168) before invoking
the factory (line 169) and never rolls the increment back, so allocated()
moves from 0 to 1 for the failed construction, while the claim and the spec
require it to stay 0. -/
theorem C1_factory_throw_increments_allocated :
    (create 0).allocated = 0
  ∧ acquire (create 0) true = .exn ((acquire (create 0) true).world)
  ∧ ((acquire (create 0) true).world).allocated = 1 := by
  refine ⟨rfl, rfl, rfl⟩

/-- Claim C3: in every configuration reached from a fresh pool by any
sequence of acquire and handle-destruction operations, pooled() is at most
allocated(), and whenever limit() is not the unlimited sentinel 0,
allocated() is at most limit(). -/
theorem C3_reachable_invariant (ops : List Op) (limitArg : Nat) :
    (run ops (initConfig limitArg)).world.pooled
      ≤ (run ops (initConfig limitArg)).world.allocated
  ∧ ((run ops (initConfig limitArg)).world.limit ≠ 0 →
      (run ops (initConfig limitArg)).world.allocated
        ≤ (run ops (initConfig limitArg)).world.limit) := by
  obtain ⟨h1, h2⟩ := run_preserves_inv ops (initConfig limitArg) (inv_initConfig limitArg)
  exact ⟨Nat.le_trans (Nat.le_add_right _ _) h1, h2⟩

/-- Witness for C3 at a concrete reachable state. -/
theorem C3_reachable_invariant_witness :
    (run [Op.acq false] (initConfig 2)).world.pooled
      ≤ (run [Op.acq false] (initConfig 2)).world.allocated
  ∧ (run [Op.acq false] (initConfig 2)).world.allocated
      ≤ (run [Op.acq false] (initConfig 2)).world.limit :=
  ⟨(C3_reachable_invariant [Op.acq false] 2).1,
   (C3_reachable_invariant [Op.acq false] 2).2 (by decide)⟩

/-- Claim C4: over any operation sequence that injects no factory failure,
allocated() equals the number of factory invocations that returned
successfully; and no single operation ever decreases allocated(). -/
theorem C4_conservation (ops : List Op) (limitArg : Nat)
    (hops : noFactoryFailure ops = true) :
    (run ops (initConfig limitArg)).world.allocated
      = (run ops (initConfig limitArg)).world.factorySuccesses
  ∧ ∀ (c : Config) (op : Op), c.world.allocated ≤ (step c op).world.allocated :=
  ⟨run_alloc_eq_successes ops (initConfig limitArg) hops rfl,
   fun c op => step_allocated_mono c op⟩

/-- Witness for C4 on a concrete failure-free operation sequence. -/
theorem C4_conservation_witness :
    (run [Op.acq false, Op.rel 0 none] (initConfig 0)).world.allocated
      = (run [Op.acq false, Op.rel 0 none] (initConfig 0)).world.factorySuccesses :=
  (C4_conservation [Op.acq false, Op.rel 0 none] 0 (by decide)).1

-- Characterization of canonical operation sequences

theorem run_acq_fresh (N i : Nat) (hiN : i ≤ N) :
    run (List.replicate i (Op.acq false)) (initConfig N) =
      { world :=
          { pool := { _limit := N, _allocated := i, _poolContainer := [] }
            poolAlive := true
            nextObj := i
            factoryCalls := i
            factorySuccesses := i
            addCalls := 0
            destroyed := [] }
        handsOut := (List.range i).map fullH } := by
  induction i with
  | zero => simp [initConfig, create, run]
  | succ j ih =>
      have hj : j ≤ N := Nat.le_of_succ_le hiN
      rw [List.replicate_succ', run_append, ih hj]
      have hlim : (N = 0 ∨ j < N) := Or.inr (Nat.lt_of_succ_le hiN)
      simp only [run, step, acquire]
      rw [if_pos hlim]
      simp [List.range_succ]

theorem run_rel_all (hs : List UniquePtrToObject) (n : Nat) (hn : n = hs.length)
    (w : World) (hAlive : w.poolAlive = true)
    (hFull : ∀ h ∈ hs, ∃ p, h = fullH p) :
    run (List.replicate n (Op.rel 0 none)) { world := w, handsOut := hs } =
      { world :=
          { w with
              pool := { w.pool with
                _poolContainer := hs.reverse ++ w.pool._poolContainer }
              addCalls := w.addCalls + hs.length }
        handsOut := [] } := by
  subst hn
  induction hs generalizing w with
  | nil =>
      obtain ⟨⟨l, a, cont⟩, al, no, fc, fs, ac, de⟩ := w
      simp [run]
  | cons h t ih =>
      obtain ⟨p, hp⟩ := hFull h (List.mem_cons_self h t)
      subst hp
      have hstep :
          step { world := w, handsOut := fullH p :: t } (Op.rel 0 none) =
            { world :=
                { w with
                    pool := { w.pool with
                      _poolContainer := fullH p :: w.pool._poolContainer }
                    addCalls := w.addCalls + 1 }
              handsOut := t } := by
        simp [step, dispose, fullH, deleterCall, hAlive, add, afterDispose]
      have hrec := ih
        { w with
            pool := { w.pool with
              _poolContainer := fullH p :: w.pool._poolContainer }
            addCalls := w.addCalls + 1 }
        hAlive (fun h hm => hFull h (List.mem_cons_of_mem _ hm))
      rw [List.length_cons, List.replicate_succ, run, hstep, hrec]
      simp [List.append_assoc]
      omega

theorem run_acq_pop (s t : List UniquePtrToObject) (n : Nat) (hn : n = s.length)
    (w : World) (hands : List UniquePtrToObject)
    (hcont : w.pool._poolContainer = s ++ t) :
    run (List.replicate n (Op.acq false)) { world := w, handsOut := hands } =
      { world := { w with pool := { w.pool with _poolContainer := t } }
        handsOut := hands ++ s } := by
  subst hn
  induction s generalizing w hands with
  | nil =>
      obtain ⟨⟨l, a, cont⟩, al, no, fc, fs, ac, de⟩ := w
      simp at hcont
      simp [run, hcont]
  | cons h s ih =>
      rw [List.length_cons, List.replicate_succ, run]
      have hstep :
          step { world := w, handsOut := hands } (Op.acq false) =
            { world := { w with pool := { w.pool with _poolContainer := s ++ t } }
              handsOut := hands ++ [h] } := by
        simp [step, acquire_cons w false h (s ++ t) hcont]
      rw [hstep, ih _ (hands ++ [h]) rfl]
      simp

theorem filterMap_obj_map_fullH (xs : List Nat) :
    (xs.map fullH).filterMap (fun h => h.obj) = xs := by
  induction xs with
  | nil => rfl
  | cons x xs ih => simp [fullH, ih]

theorem mem_map_fullH_isSome (h : UniquePtrToObject) (xs : List Nat)
    (hm : h ∈ xs.map fullH) : h.obj.isSome = true := by
  obtain ⟨k, hk, hkh⟩ := List.mem_map.mp hm
  rw [← hkh]
  rfl

theorem afterCycle_eq (N : Nat) :
    afterCycle N =
      { world :=
          { pool :=
              { _limit := N
                _allocated := N
                _poolContainer := ((List.range N).map fullH).reverse }
            poolAlive := true
            nextObj := N
            factoryCalls := N
            factorySuccesses := N
            addCalls := N
            destroyed := [] }
        handsOut := [] } := by
  have hFull : ∀ h ∈ (List.range N).map fullH, ∃ p, h = fullH p := by
    intro h hm
    obtain ⟨k, hk, hkh⟩ := List.mem_map.mp hm
    exact ⟨k, hkh.symm⟩
  rw [afterCycle, run_append, run_acq_fresh N N le_rfl,
    run_rel_all ((List.range N).map fullH) N (by simp) _ rfl hFull]
  simp

-- Spec of the pool destructor loop

theorem dtorLoop_spec (s : List UniquePtrToObject) (w : World)
    (hc : w.pool._poolContainer = s) :
    dtorLoop s w =
      { w with
          pool := { w.pool with _poolContainer := [] }
          destroyed := w.destroyed ++ s.filterMap (fun h => h.obj) } := by
  induction s generalizing w with
  | nil =>
      obtain ⟨⟨l, a, cont⟩, al, no, fc, fs, ac, de⟩ := w
      simp only [dtorLoop]
      simp at hc
      simp [hc]
  | cons top rest ih =>
      cases hobj : top.obj with
      | none =>
          have hstep :
              afterDispose (dispose { w with pool := { w.pool with _poolContainer := rest } }
                { top with deleter := top.deleter.detachFromPool } none) =
                { w with pool := { w.pool with _poolContainer := rest } } := by
            simp [dispose, hobj, afterDispose]
          rw [dtorLoop, hstep,
            ih { w with pool := { w.pool with _poolContainer := rest } } rfl]
          simp [List.filterMap_cons, hobj]
      | some p =>
          have hstep :
              afterDispose (dispose { w with pool := { w.pool with _poolContainer := rest } }
                { top with deleter := top.deleter.detachFromPool } none) =
                { w with
                    pool := { w.pool with _poolContainer := rest }
                    destroyed := w.destroyed ++ [p] } := by
            simp [dispose, hobj, deleterCall, ReturnToPoolDeleter.detachFromPool,
              afterDispose, deleteObj]
          rw [dtorLoop, hstep,
            ih { w with
                   pool := { w.pool with _poolContainer := rest }
                   destroyed := w.destroyed ++ [p] } rfl]
          simp [List.filterMap_cons, hobj]

theorem poolDtor_spec (w : World) :
    poolDtor w =
      { w with
          pool := { w.pool with _poolContainer := [] }
          destroyed := w.destroyed ++ w.pool._poolContainer.filterMap (fun h => h.obj)
          poolAlive := false } := by
  rw [poolDtor, dtorLoop_spec w.pool._poolContainer w rfl]

/-- Claim C2: on a fresh pool with finite limit N and no releases, each of
the first N acquires returns a non-empty handle, allocated() counts up to N
with pooled() staying 0, and the next acquire returns (not throws) the empty
handle and leaves the state unchanged. -/
theorem C2_exhaustion_boundary (N : Nat) (hN : N ≠ 0) :
    (∀ i, i ≤ N →
        (afterAcqs N i).world.allocated = i
      ∧ (afterAcqs N i).world.pooled = 0
      ∧ (afterAcqs N i).handsOut.length = i
      ∧ ∀ h ∈ (afterAcqs N i).handsOut, h.obj.isSome = true)
  ∧ acquire (afterAcqs N N).world false =
      .ret { obj := none, deleter := { _ptrToOwnerPool := false } } (afterAcqs N N).world := by
  constructor
  · intro i hi
    rw [afterAcqs, run_acq_fresh N i hi]
    exact ⟨rfl, rfl, by simp, fun h hm => mem_map_fullH_isSome h _ hm⟩
  · rw [afterAcqs, run_acq_fresh N N le_rfl]
    refine acquire_exhausted _ false rfl ?_
    show ¬(N = 0 ∨ N < N)
    omega

/-- Witness for C2 with limit 2. -/
theorem C2_exhaustion_boundary_witness :
    (afterAcqs 2 2).world.allocated = 2
  ∧ acquire (afterAcqs 2 2).world false =
      .ret { obj := none, deleter := { _ptrToOwnerPool := false } } (afterAcqs 2 2).world :=
  ⟨(((C2_exhaustion_boundary 2 (by decide)).1 2 (by decide))).1,
   (C2_exhaustion_boundary 2 (by decide)).2⟩

/-- Claim C5: LIFO reuse.  From any live pool state, destroying a full
handle on object a and then one on object b pushes them in that order, and
two subsequent acquires return b first and then a, both popped from the
recycle stack without touching the factory. -/
theorem C5_lifo_reuse (w : World) (a b : Nat) (dA dB : ReturnToPoolDeleter)
    (hAlive : w.poolAlive = true)
    (hA : dA._ptrToOwnerPool = true) (hB : dB._ptrToOwnerPool = true) :
    dispose w { obj := some a, deleter := dA } none = .ok (pushBack w a)
  ∧ dispose (pushBack w a) { obj := some b, deleter := dB } none =
      .ok (pushBack (pushBack w a) b)
  ∧ acquire (pushBack (pushBack w a) b) false =
      .ret (fullH b) (popTop (pushBack (pushBack w a) b))
  ∧ acquire (popTop (pushBack (pushBack w a) b)) false =
      .ret (fullH a) (popTop (popTop (pushBack (pushBack w a) b)))
  ∧ (popTop (popTop (pushBack (pushBack w a) b))).factoryCalls = w.factoryCalls
  ∧ (popTop (popTop (pushBack (pushBack w a) b))).pool._allocated = w.pool._allocated
  ∧ (popTop (popTop (pushBack (pushBack w a) b))).pool._poolContainer
      = w.pool._poolContainer := by
  refine ⟨?_, ?_, ?_, ?_, rfl, rfl, rfl⟩
  · simp [dispose, deleterCall, hA, hAlive, add, pushBack, fullH]
  · simp [dispose, deleterCall, hB, hAlive, add, pushBack, fullH]
  · exact acquire_cons _ false _ _ rfl
  · exact acquire_cons _ false _ _ rfl

/-- Witness for C5 on a fresh unlimited pool with objects 1 and 2. -/
theorem C5_lifo_reuse_witness :
    acquire (pushBack (pushBack (create 0) 1) 2) false =
      .ret (fullH 2) (popTop (pushBack (pushBack (create 0) 1) 2)) :=
  (C5_lifo_reuse (create 0) 1 2 { _ptrToOwnerPool := true } { _ptrToOwnerPool := true }
    rfl rfl rfl).2.2.1

/-- Claim C6: with limit N, after acquiring N objects and releasing all N
back (pooled() = N, allocated() = N), the next j acquires (j up to N) all
return non-empty handles, do not invoke the factory again, keep allocated()
at N, and take pooled() down to N - j. -/
theorem C6_recycle_reacquire (N j : Nat) (hj : j ≤ N) :
    (afterCycle N).world.pooled = N
  ∧ (afterCycle N).world.allocated = N
  ∧ (run (List.replicate j (Op.acq false)) (afterCycle N)).world.allocated = N
  ∧ (run (List.replicate j (Op.acq false)) (afterCycle N)).world.pooled = N - j
  ∧ (run (List.replicate j (Op.acq false)) (afterCycle N)).world.factoryCalls =
      (afterCycle N).world.factoryCalls
  ∧ (run (List.replicate j (Op.acq false)) (afterCycle N)).handsOut.length = j
  ∧ ∀ h ∈ (run (List.replicate j (Op.acq false)) (afterCycle N)).handsOut,
      h.obj.isSome = true := by
  have hjlen : j = (((List.range N).map fullH).reverse.take j).length := by
    simp [List.length_take]
    omega
  have hrec := run_acq_pop (((List.range N).map fullH).reverse.take j)
      (((List.range N).map fullH).reverse.drop j) j hjlen
      { pool :=
          { _limit := N
            _allocated := N
            _poolContainer := ((List.range N).map fullH).reverse }
        poolAlive := true
        nextObj := N
        factoryCalls := N
        factorySuccesses := N
        addCalls := N
        destroyed := [] }
      [] (List.take_append_drop j _).symm
  rw [afterCycle_eq, hrec]
  refine ⟨by simp [World.pooled], rfl, rfl, ?_, rfl, ?_, ?_⟩
  · simp [World.pooled]
  · simpa using hjlen.symm
  · intro h hm
    simp only [List.nil_append] at hm
    have hm2 : h ∈ ((List.range N).map fullH).reverse := List.take_subset _ _ hm
    exact mem_map_fullH_isSome h _ (List.mem_reverse.mp hm2)

/-- Witness for C6 with N = 2, j = 1. -/
theorem C6_recycle_reacquire_witness :
    (run (List.replicate 1 (Op.acq false)) (afterCycle 2)).world.pooled = 2 - 1
  ∧ (run (List.replicate 1 (Op.acq false)) (afterCycle 2)).world.factoryCalls =
      (afterCycle 2).world.factoryCalls :=
  ⟨(C6_recycle_reacquire 2 1 (by decide)).2.2.2.1,
   (C6_recycle_reacquire 2 1 (by decide)).2.2.2.2.1⟩

/-- Claim C7: disposal of a full handle whose deleter resolves a live pool
and whose insertion succeeds pushes the object, re-wrapped as a new handle
with a weak pointer to the same pool, onto the recycle stack: pooled() grows
by one and the object is not destroyed.  If the pool is already gone, the
object is deleted directly and the pool state and add counter are
untouched. -/
theorem C7_return_protocol (w : World) (d : ReturnToPoolDeleter) (p : Nat) :
    (d._ptrToOwnerPool = true → w.poolAlive = true →
        deleterCall w d p none = .ok (pushBack w p)
      ∧ (pushBack w p).pooled = w.pooled + 1
      ∧ (pushBack w p).pool._poolContainer = fullH p :: w.pool._poolContainer
      ∧ (pushBack w p).destroyed = w.destroyed)
  ∧ (∀ f : Option Exn, w.poolAlive = false →
        deleterCall w d p f = .ok (deleteObj w p)
      ∧ (deleteObj w p).pool = w.pool
      ∧ (deleteObj w p).addCalls = w.addCalls
      ∧ (deleteObj w p).destroyed = w.destroyed ++ [p]) := by
  constructor
  · intro hd hAlive
    refine ⟨?_, ?_, rfl, rfl⟩
    · simp [deleterCall, hd, hAlive, add, pushBack]
    · simp [pushBack, World.pooled]
  · intro f hDead
    refine ⟨?_, rfl, rfl, rfl⟩
    simp [deleterCall, hDead]

/-- Witness for C7: a live fresh pool recycles object 5; a dead pool
deletes it. -/
theorem C7_return_protocol_witness :
    deleterCall (create 0) { _ptrToOwnerPool := true } 5 none = .ok (pushBack (create 0) 5)
  ∧ deleterCall { create 0 with poolAlive := false } { _ptrToOwnerPool := true } 5 none =
      .ok (deleteObj { create 0 with poolAlive := false } 5) :=
  ⟨((C7_return_protocol (create 0) { _ptrToOwnerPool := true } 5).1 rfl rfl).1,
   ((C7_return_protocol { create 0 with poolAlive := false }
      { _ptrToOwnerPool := true } 5).2 none rfl).1⟩

/-- Claim C8 (code bug in the source): the claim is the evident intent of
the try/catch at RaiiObjectPool.hpp lines 221-229 (recover an insertion
failure locally by deleting the object directly, surfacing nothing), but
the code does not implement it: add takes its handle parameter by value, so
the parameter's destructor re-runs the return protocol on the same pointer
during unwinding before the catch executes.  Evaluated on a fresh live pool
disposing object 7: one bad_alloc push failure whose re-entrant attempt
succeeds leaves 7 both recycled in the container and delete'd (a dangling
recycle-stack entry); two successive bad_alloc failures delete 7 twice; a
non-bad_alloc failure ends in std::terminate with 7 recycled and never
deleted.  On none of these paths does the claimed behaviour - object
destroyed directly instead of recycled, failure absorbed silently -
occur. -/
theorem C8_insertion_failure_reentry :
    (deleterCallUnwind { _ptrToOwnerPool := true } 7 [some Exn.badAlloc] (create 0) =
      .done { create 0 with
                addCalls := 2
                pool := { (create 0).pool with _poolContainer := [fullH 7] }
                destroyed := [7] })
  ∧ (deleterCallUnwind { _ptrToOwnerPool := true } 7 [some Exn.badAlloc, some Exn.badAlloc]
        (create 0) =
      .done { create 0 with
                addCalls := 3
                pool := { (create 0).pool with _poolContainer := [fullH 7] }
                destroyed := [7, 7] })
  ∧ (deleterCallUnwind { _ptrToOwnerPool := true } 7 [some Exn.other] (create 0) =
      .terminated { create 0 with
                      addCalls := 2
                      pool := { (create 0).pool with _poolContainer := [fullH 7] } }) :=
  ⟨rfl, rfl, rfl⟩

/-- Claim C9: the pool destructor severs each stacked entry's deleter from
the pool before dropping it, so tearing down a pool holding K recycled
objects destroys exactly K objects, never re-enters add, and empties the
stack. -/
theorem C9_teardown_destroys_pooled (K : Nat) :
    (afterCycle K).world.pooled = K
  ∧ (poolDtor (afterCycle K).world).destroyed.length = K
  ∧ (poolDtor (afterCycle K).world).addCalls = (afterCycle K).world.addCalls
  ∧ (poolDtor (afterCycle K).world).pool._poolContainer = []
  ∧ (poolDtor (afterCycle K).world).poolAlive = false := by
  rw [afterCycle_eq, poolDtor_spec]
  refine ⟨by simp [World.pooled], ?_, rfl, rfl, rfl⟩
  simp only [List.filterMap_reverse, List.nil_append, List.length_reverse]
  rw [filterMap_obj_map_fullH]
  simp

/-- Claim C10: a detached deleter (and equally the default-constructed one
of an empty handle) always deletes the object directly and never touches
pool state or enters add, also while the pool is still alive. -/
theorem C10_detached_policy (w : World) (d : ReturnToPoolDeleter) (p : Nat)
    (f : Option Exn) :
    dispose w { obj := some p, deleter := d.detachFromPool } f = .ok (deleteObj w p)
  ∧ dispose w { obj := some p, deleter := { _ptrToOwnerPool := false } } f =
      .ok (deleteObj w p)
  ∧ (deleteObj w p).pool = w.pool
  ∧ (deleteObj w p).addCalls = w.addCalls
  ∧ (deleteObj w p).destroyed = w.destroyed ++ [p] := by
  refine ⟨?_, ?_, rfl, rfl, rfl⟩ <;>
    simp [dispose, deleterCall, ReturnToPoolDeleter.detachFromPool]

end RaiiPool
